import Mathlib

/-!
A shallow embedding of the frame-extraction pipeline of `src/A3.c`.

The program opens a media container, selects the first video stream whose
codec resolves to a decoder (`main`, lines 116-161), then loops over packets
(`main`, lines 193-208): each packet of the selected stream is decoded
(`decode_packet`, lines 243-290), every frame the decoder yields is exported
as a PGM grayscale file (`save_gray_frame`, lines 303-318) and a PPM color
file (`save_rgb_frame`, lines 321-344), and a countdown starting at 5 is
decremented once per processed packet.

The external ffmpeg collaborators (container demuxing, the codec, and
`sws_scale`) are modelled as oracles: a packet carries, besides its stream
index, the behaviour the decoder exhibits when fed that packet
(`avcodec_send_packet` return value and the successive `avcodec_receive_frame`
outcomes), and the pixel-format conversion is an abstract function from the
source frame to destination bytes.  Everything the program itself does -
stream selection, the packet loop, the pull-until-would-block loop, the
frame counter, file naming, headers, and stride-aware row writing - is
translated directly from the C.
-/

/-- Byte values of an ASCII string, as an `fprintf` of that string writes them. -/
def strBytes (s : String) : List Nat := s.toList.map Char.toNat

/-- Pixel-format tag `AV_PIX_FMT_YUV420P` (the value ffmpeg assigns it). -/
def AV_PIX_FMT_YUV420P : Int := 0

/-- Pixel-format tag `AV_PIX_FMT_RGB24`; the file's `dst_pix_fmt` (line 35). -/
def AV_PIX_FMT_RGB24 : Int := 2

/-- A decoded picture as `decode_packet` hands it to the exporters: width,
height, pixel-format tag, and the plane buffers with their strides
(`AVFrame.data[i]` / `AVFrame.linesize[i]`).  A plane buffer is a total map
from byte offset to byte value.  Fields of `AVFrame` that the program only
logs (pts, key_frame, picture type, ...) are omitted. -/
structure Frame where
  width : Nat
  height : Nat
  format : Int
  data0 : Nat → Nat
  linesize0 : Nat
  data1 : Nat → Nat
  linesize1 : Nat
  data2 : Nat → Nat
  linesize2 : Nat

/-- Model of the external `sws_scale` conversion collaborator: given the
source frame it determines the destination plane's bytes (destination byte
offset to byte value).  The numeric colorspace transform is delegated to this
oracle, exactly as the C delegates it to libswscale. -/
structure SwsModel where
  convert : Frame → Nat → Nat

/-- Translation of `allocateFrame` (src/A3.c lines 346-360): a fresh frame of
the given geometry in `dst_pix_fmt` = RGB24.  `av_image_alloc` with align 1
gives the packed RGB24 plane a stride of `width * 3`; the fresh buffer's
contents are unspecified, modelled as all zeroes - in particular they are
independent of every previously existing frame. -/
def allocateFrame (width height : Nat) : Frame :=
  { width := width
    height := height
    format := AV_PIX_FMT_RGB24
    data0 := fun _ => 0
    linesize0 := width * 3
    data1 := fun _ => 0
    linesize1 := 0
    data2 := fun _ => 0
    linesize2 := 0 }

/-- Translation of the `sws_scale` call (src/A3.c line 338): the source
planes are passed as `uint8_t const * const *`, so the call writes the
destination plane from the source and leaves the source untouched; the result
is the destination frame with its plane filled in, paired with the source
frame as it stands after the call. -/
def sws_scale (m : SwsModel) (src : Frame) (dst : Frame) : Frame × Frame :=
  ({ dst with data0 := m.convert src }, src)

/-- The conversion step performed inside `save_rgb_frame` (src/A3.c lines
333-339): allocate a destination frame at the same width and height as the
input, then run the conversion.  Returns (converted frame, input frame after
the call). -/
def convertStep (m : SwsModel) (pFrame : Frame) : Frame × Frame :=
  sws_scale m pFrame (allocateFrame pFrame.width pFrame.height)

/-- One output raster file: its name and its bytes. -/
structure RawFile where
  name : String
  bytes : List Nat
deriving DecidableEq

/-- The bytes of one `fwrite(buf + start, 1, n, f)` call: `n` consecutive
bytes of `buf` starting at offset `start`. -/
def rowBytes (buf : Nat → Nat) (start n : Nat) : List Nat :=
  (List.range n).map fun c => buf (start + c)

/-- The bytes written by the row loop `for (i = 0; i < ysize; i++)
fwrite(buf + i * wrap, 1, rowLen, f)` shared by both exporters: `ysize` rows,
row `i` read at stride offset `i * wrap`, `rowLen` bytes each. -/
def writeRows (buf : Nat → Nat) (wrap rowLen : Nat) : Nat → List Nat
  | 0 => []
  | ysize + 1 => writeRows buf wrap rowLen ysize ++ rowBytes buf (ysize * wrap) rowLen

/-- The PGM header `fprintf(f, "P5\n%d %d\n%d\n", xsize, ysize, 255)`
(src/A3.c line 312). -/
def pgmHeader (xsize ysize : Nat) : List Nat :=
  strBytes ("P5\n" ++ Nat.repr xsize ++ " " ++ Nat.repr ysize ++ "\n" ++ Nat.repr 255 ++ "\n")

/-- The PPM header `fprintf(f, "P6\n%d %d\n255\n", width, height)`
(src/A3.c line 330). -/
def ppmHeader (width height : Nat) : List Nat :=
  strBytes ("P6\n" ++ Nat.repr width ++ " " ++ Nat.repr height ++ "\n255\n")

/-- Translation of `save_gray_frame` (src/A3.c lines 303-318): the file
`frame-<fnumber>.pgm` holding the P5 header followed by `ysize` rows of
`xsize` bytes each, row `i` read from the luma buffer at `buf + i * wrap`. -/
def save_gray_frame (buf : Nat → Nat) (wrap xsize ysize fnumber : Nat) : RawFile :=
  { name := "frame-" ++ Nat.repr fnumber ++ ".pgm"
    bytes := pgmHeader xsize ysize ++ writeRows buf wrap xsize ysize }

/-- Translation of `save_rgb_frame` (src/A3.c lines 321-344): the file
`frame-<fnumber>.ppm` holding the P6 header followed by the converted frame's
rows, row `i` read at `frame_rgb->data[0] + i * frame_rgb->linesize[0]`,
`frame_rgb->width * 3` bytes each.  The input frame as it stands after the
internal conversion call is returned alongside the file. -/
def save_rgb_frame (m : SwsModel) (pFrame : Frame) (fnumber : Nat) : RawFile × Frame :=
  let conv := convertStep m pFrame
  let frame_rgb := conv.1
  ({ name := "frame-" ++ Nat.repr fnumber ++ ".ppm"
     bytes := ppmHeader pFrame.width pFrame.height ++
       writeRows frame_rgb.data0 frame_rgb.linesize0 (frame_rgb.width * 3) frame_rgb.height }
   , conv.2)

/-- One `avcodec_receive_frame` outcome, as the branch structure of
`decode_packet` (src/A3.c lines 252-258) distinguishes them: a decoded frame
(return ≥ 0), `AVERROR(EAGAIN)` (no frame ready), `AVERROR_EOF`, or any other
error return (`code` stands for a negative return value outside the two
special cases). -/
inductive RecvOutcome where
  | frame (f : Frame)
  | again
  | eof
  | err (code : Int)

/-- The decoder's behaviour on one packet: the `avcodec_send_packet` return
value and the successive `avcodec_receive_frame` outcomes.  The pull loop
stops at the first non-frame outcome; an exhausted list is read as
would-block. -/
structure PacketBeh where
  sendResult : Int
  recv : List RecvOutcome

/-- A packet as `av_read_frame` delivers it: its stream index, together with
the decoder-behaviour oracle for it. -/
structure Packet where
  stream_index : Nat
  beh : PacketBeh

/-- The codec context state the program reads: `AVCodecContext.frame_number`,
which ffmpeg increments on every successful `avcodec_receive_frame`. -/
structure CodecCtx where
  frame_number : Nat
deriving DecidableEq

/-- Calls the program makes into the codec/container library.  `sendFlush`
stands for the drain signal `avcodec_send_packet(ctx, NULL)`; the embedding
emits it nowhere because the C never drains the decoder. -/
inductive LibCall where
  | sendPacket
  | receiveFrame
  | sendFlush
  | closeInput
  | packetFree
  | frameFree
  | freeContext
deriving DecidableEq

/-- One exported frame: the frame number used for naming, and the pair of
files written for it (grayscale first, then color, in program order). -/
structure Export where
  fnumber : Nat
  gray : RawFile
  rgb : RawFile
deriving DecidableEq

/-- Result of `decode_packet`: its return value, the codec context after it,
the exports it performed, and the library calls it made. -/
structure DecodeResult where
  response : Int
  ctx : CodecCtx
  exports : List Export
  calls : List LibCall

/-- Translation of the pull loop of `decode_packet` (src/A3.c lines 251-288):
repeat `avcodec_receive_frame`; on `EAGAIN` or `EOF` break (returning 0), on
any other error return it, and for each yielded frame increment
`frame_number`, save the grayscale file, then save the color file. -/
def pullLoop (m : SwsModel) : CodecCtx → List RecvOutcome → DecodeResult
  | ctx, [] => ⟨0, ctx, [], []⟩
  | ctx, RecvOutcome.again :: _ => ⟨0, ctx, [], [LibCall.receiveFrame]⟩
  | ctx, RecvOutcome.eof :: _ => ⟨0, ctx, [], [LibCall.receiveFrame]⟩
  | ctx, RecvOutcome.err c :: _ => ⟨c, ctx, [], [LibCall.receiveFrame]⟩
  | ctx, RecvOutcome.frame f :: rest =>
      let fn := ctx.frame_number + 1
      let gray := save_gray_frame f.data0 f.linesize0 f.width f.height fn
      let rgb := save_rgb_frame m f fn
      let r := pullLoop m ⟨fn⟩ rest
      ⟨r.response, r.ctx, ⟨fn, gray, rgb.1⟩ :: r.exports, LibCall.receiveFrame :: r.calls⟩

/-- Translation of `decode_packet` (src/A3.c lines 243-290): feed the packet
with `avcodec_send_packet`; a negative return is returned at once, otherwise
run the pull loop. -/
def decode_packet (m : SwsModel) (pPacket : Packet) (ctx : CodecCtx) : DecodeResult :=
  if pPacket.beh.sendResult < 0 then
    ⟨pPacket.beh.sendResult, ctx, [], [LibCall.sendPacket]⟩
  else
    let r := pullLoop m ctx pPacket.beh.recv
    ⟨r.response, r.ctx, r.exports, LibCall.sendPacket :: r.calls⟩

/-- How the packet loop of `main` terminated: `av_read_frame` exhausted the
container, `decode_packet` returned a negative response, or the countdown
`how_many_packets_to_process` reached zero. -/
inductive LoopExit where
  | endOfStream
  | decodeError (code : Int)
  | budgetExhausted
deriving DecidableEq

/-- Result of the packet loop: the codec context and countdown after it, the
exports performed, the library calls made, and how the loop ended. -/
structure LoopResult where
  ctx : CodecCtx
  budget : Int
  exports : List Export
  calls : List LibCall
  exitKind : LoopExit

/-- Translation of the packet loop of `main` (src/A3.c lines 193-208):
`while (av_read_frame(...) >= 0)` walk the packets in order; a packet whose
`stream_index` differs from the selected video stream is skipped; otherwise
`decode_packet` runs, a negative response breaks out of the loop, and then
`if (--how_many_packets_to_process <= 0) break;` decrements the countdown
once for the packet and stops once it reaches zero. -/
def packetLoop (m : SwsModel) (vidx : Int) : CodecCtx → Int → List Packet → LoopResult
  | ctx, budget, [] => ⟨ctx, budget, [], [], LoopExit.endOfStream⟩
  | ctx, budget, p :: rest =>
      if (p.stream_index : Int) = vidx then
        let d := decode_packet m p ctx
        if d.response < 0 then
          ⟨d.ctx, budget, d.exports, d.calls, LoopExit.decodeError d.response⟩
        else if budget - 1 ≤ 0 then
          ⟨d.ctx, budget - 1, d.exports, d.calls, LoopExit.budgetExhausted⟩
        else
          let r := packetLoop m vidx d.ctx (budget - 1) rest
          ⟨r.ctx, r.budget, d.exports ++ r.exports, d.calls ++ r.calls, r.exitKind⟩
      else
        packetLoop m vidx ctx budget rest

/-- One stream's metadata as the selection loop of `main` consults it: its
media type and whether `avcodec_find_decoder(codecpar->codec_id)` finds a
decoder for it. -/
inductive CodecType where
  | video
  | audio
  | other
deriving DecidableEq

/-- A stream descriptor (`AVStream` / `AVCodecParameters`) restricted to the
fields the selection loop reads. -/
structure StreamDesc where
  codec_type : CodecType
  hasDecoder : Bool
deriving DecidableEq

/-- Translation of the stream-selection loop of `main` (src/A3.c lines
121-155): walk the streams in container order with running index `i`; a
stream without a resolvable decoder is skipped (`continue`), a video stream
is recorded only while `video_stream_index` is still -1, every other stream
is merely logged. -/
def streamSelectLoop : List StreamDesc → Nat → Int → Int
  | [], _, video_stream_index => video_stream_index
  | s :: rest, i, video_stream_index =>
      if s.hasDecoder = false then
        streamSelectLoop rest (i + 1) video_stream_index
      else
        let acc :=
          if s.codec_type = CodecType.video ∧ video_stream_index = -1 then (i : Int)
          else video_stream_index
        streamSelectLoop rest (i + 1) acc

/-- Result of a run of `main` past the probing stage: the process exit
status, the exports performed, and the library calls made. -/
structure RunResult where
  exitCode : Int
  exports : List Export
  calls : List LibCall

/-- Translation of `main` from stream selection onward (src/A3.c lines
116-217): select the video stream (exit -1 with nothing written when there is
none), run the packet loop with `how_many_packets_to_process = 5` and a codec
context whose `frame_number` starts at 0, then release the resources (lines
212-215) and `return 0` - whatever way the loop ended. -/
def runMain (m : SwsModel) (streams : List StreamDesc) (packets : List Packet) : RunResult :=
  let video_stream_index := streamSelectLoop streams 0 (-1)
  if video_stream_index = -1 then
    { exitCode := -1, exports := [], calls := [] }
  else
    let r := packetLoop m video_stream_index ⟨0⟩ 5 packets
    { exitCode := 0
      exports := r.exports
      calls := r.calls ++ [LibCall.closeInput, LibCall.packetFree, LibCall.frameFree,
        LibCall.freeContext] }

/-- Number of frames the decoder yields for one packet before signalling
would-block or end of stream: the leading `frame` outcomes of the oracle. -/
def framesYielded : List RecvOutcome → Nat
  | RecvOutcome.frame _ :: rest => framesYielded rest + 1
  | _ => 0

/-- True when no `avcodec_receive_frame` outcome in the list is a fatal
error. -/
def noErrList : List RecvOutcome → Bool
  | [] => true
  | RecvOutcome.err _ :: _ => false
  | _ :: rest => noErrList rest

/-- The error code, if any, on which a packet's pull sequence fails: after
the leading yielded frames, `avcodec_receive_frame` returns an error other
than EAGAIN/EOF (the `err` branch of src/A3.c lines 256-258). -/
def pullError : List RecvOutcome → Option Int
  | RecvOutcome.err c :: _ => some c
  | RecvOutcome.frame _ :: rest => pullError rest
  | _ => none

/-- A packet behaviour on which the decode path raises no fatal error: the
feed is accepted and no pull fails. -/
def cleanBeh (b : PacketBeh) : Prop :=
  0 ≤ b.sendResult ∧ noErrList b.recv = true

instance (b : PacketBeh) : Decidable (cleanBeh b) := by
  unfold cleanBeh; infer_instance

/-- The packets of the trace belonging to the selected video stream, in
order. -/
def videoPackets (vidx : Int) (packets : List Packet) : List Packet :=
  packets.filter fun p => decide ((p.stream_index : Int) = vidx)

/-- Modelled from the spec: the total number of decodable video frames of a
trace - the frames the decoder would yield across all packets of the selected
video stream. -/
def spec_totalDecodableFrames (vidx : Int) (packets : List Packet) : Nat :=
  ((videoPackets vidx packets).map fun p => framesYielded p.beh.recv).sum

/-- Modelled from the spec: the index of the first stream, in container
order, of video type with a resolvable decoder. -/
def spec_firstVideo : List StreamDesc → Option Nat
  | [] => none
  | s :: rest =>
      if s.hasDecoder = true ∧ s.codec_type = CodecType.video then some 0
      else (spec_firstVideo rest).map (· + 1)

/-- Result of `fopen` as the exporters see it: a usable handle, or NULL. -/
inductive FopenResult where
  | opened
  | nullHandle
deriving DecidableEq

/-- Observable write behaviour of one exporter invocation: how many write
calls (`fprintf` / `fwrite`) it issues on the handle `fopen` returned, and
whether it reports any error. -/
structure ExportEffects where
  writesOnHandle : Nat
  errorReported : Bool
deriving DecidableEq

/-- The open/write effect structure of `save_gray_frame` (src/A3.c lines
303-318): after `fopen` the function - without examining the returned handle
or any write's result - issues one header `fprintf` and `ysize` row `fwrite`
calls on that handle, and returns void, reporting nothing.  The `fopen`
result does not alter its control flow, which is why it is an unused
argument here. -/
def save_gray_frame_effects (_openRes : FopenResult) (ysize : Nat) : ExportEffects :=
  { writesOnHandle := 1 + ysize, errorReported := false }

/-- The open/write effect structure of `save_rgb_frame` (src/A3.c lines
321-344): identical shape - one header `fprintf` and `height` row `fwrite`
calls issued unconditionally on the handle `fopen` returned, no error
reported. -/
def save_rgb_frame_effects (_openRes : FopenResult) (height : Nat) : ExportEffects :=
  { writesOnHandle := 1 + height, errorReported := false }

/-! ### Basic facts about the row-writing loop -/

theorem rowBytes_length (buf : Nat → Nat) (start n : Nat) :
    (rowBytes buf start n).length = n := by
  simp [rowBytes]

theorem rowBytes_getD (buf : Nat → Nat) (start n c : Nat) (hc : c < n) :
    (rowBytes buf start n).getD c 0 = buf (start + c) := by
  simp [rowBytes, List.getD_eq_getElem?_getD, List.getElem?_map, List.getElem?_range hc]

theorem writeRows_length (buf : Nat → Nat) (wrap rowLen : Nat) :
    ∀ y, (writeRows buf wrap rowLen y).length = y * rowLen := by
  intro y
  induction y with
  | zero => simp [writeRows]
  | succ n ih => simp [writeRows, ih, rowBytes_length, Nat.succ_mul]

theorem writeRows_getD (buf : Nat → Nat) (wrap rowLen : Nat) :
    ∀ y r c, r < y → c < rowLen →
      (writeRows buf wrap rowLen y).getD (r * rowLen + c) 0 = buf (r * wrap + c) := by
  intro y
  induction y with
  | zero => intro r c hr _; omega
  | succ n ih =>
    intro r c hr hc
    rcases Nat.lt_succ_iff_lt_or_eq.mp hr with h | h
    · rw [writeRows]
      rw [List.getD_append]
      · exact ih r c h hc
      · rw [writeRows_length]
        calc r * rowLen + c < r * rowLen + rowLen := by omega
          _ = (r + 1) * rowLen := by ring
          _ ≤ n * rowLen := Nat.mul_le_mul_right _ (by omega)
    · subst h
      rw [writeRows]
      rw [List.getD_append_right]
      · rw [writeRows_length]
        have hsub : r * rowLen + c - r * rowLen = c := by omega
        rw [hsub, rowBytes_getD _ _ _ _ hc]
      · rw [writeRows_length]; omega

theorem writeRows_mem (buf : Nat → Nat) (wrap rowLen : Nat) :
    ∀ y b, b ∈ writeRows buf wrap rowLen y →
      ∃ r c, r < y ∧ c < rowLen ∧ b = buf (r * wrap + c) := by
  intro y
  induction y with
  | zero => intro b hb; simp [writeRows] at hb
  | succ n ih =>
    intro b hb
    rw [writeRows, List.mem_append] at hb
    rcases hb with hb | hb
    · obtain ⟨r, c, hr, hc, he⟩ := ih b hb
      exact ⟨r, c, by omega, hc, he⟩
    · simp only [rowBytes, List.mem_map, List.mem_range] at hb
      obtain ⟨c, hc, he⟩ := hb
      exact ⟨n, c, by omega, hc, he.symm⟩

theorem range_app (s m n : Nat) :
    List.range' s m ++ List.range' (s + m) n = List.range' s (m + n) := by
  have h := List.range'_append s m n 1
  simp only [one_mul] at h
  rw [h, Nat.add_comm n m]

/-! ### Unfolding equations of the loops -/

theorem pullLoop_nil (m : SwsModel) (ctx : CodecCtx) :
    pullLoop m ctx [] = ⟨0, ctx, [], []⟩ := rfl

theorem pullLoop_again (m : SwsModel) (ctx : CodecCtx) (rest : List RecvOutcome) :
    pullLoop m ctx (RecvOutcome.again :: rest) = ⟨0, ctx, [], [LibCall.receiveFrame]⟩ := rfl

theorem pullLoop_eof (m : SwsModel) (ctx : CodecCtx) (rest : List RecvOutcome) :
    pullLoop m ctx (RecvOutcome.eof :: rest) = ⟨0, ctx, [], [LibCall.receiveFrame]⟩ := rfl

theorem pullLoop_err (m : SwsModel) (ctx : CodecCtx) (c : Int) (rest : List RecvOutcome) :
    pullLoop m ctx (RecvOutcome.err c :: rest) = ⟨c, ctx, [], [LibCall.receiveFrame]⟩ := rfl

theorem pullLoop_frame (m : SwsModel) (ctx : CodecCtx) (f : Frame) (rest : List RecvOutcome) :
    pullLoop m ctx (RecvOutcome.frame f :: rest) =
      ⟨(pullLoop m ⟨ctx.frame_number + 1⟩ rest).response,
       (pullLoop m ⟨ctx.frame_number + 1⟩ rest).ctx,
       ⟨ctx.frame_number + 1,
        save_gray_frame f.data0 f.linesize0 f.width f.height (ctx.frame_number + 1),
        (save_rgb_frame m f (ctx.frame_number + 1)).1⟩ ::
          (pullLoop m ⟨ctx.frame_number + 1⟩ rest).exports,
       LibCall.receiveFrame :: (pullLoop m ⟨ctx.frame_number + 1⟩ rest).calls⟩ := rfl

theorem decode_packet_sendFail (m : SwsModel) (p : Packet) (ctx : CodecCtx)
    (h : p.beh.sendResult < 0) :
    decode_packet m p ctx = ⟨p.beh.sendResult, ctx, [], [LibCall.sendPacket]⟩ := by
  rw [decode_packet, if_pos h]

theorem decode_packet_sendOk (m : SwsModel) (p : Packet) (ctx : CodecCtx)
    (h : ¬ p.beh.sendResult < 0) :
    decode_packet m p ctx =
      ⟨(pullLoop m ctx p.beh.recv).response, (pullLoop m ctx p.beh.recv).ctx,
       (pullLoop m ctx p.beh.recv).exports,
       LibCall.sendPacket :: (pullLoop m ctx p.beh.recv).calls⟩ := by
  rw [decode_packet, if_neg h]

theorem packetLoop_nil (m : SwsModel) (vidx : Int) (ctx : CodecCtx) (budget : Int) :
    packetLoop m vidx ctx budget [] = ⟨ctx, budget, [], [], LoopExit.endOfStream⟩ := rfl

theorem packetLoop_skip (m : SwsModel) (vidx : Int) (ctx : CodecCtx) (budget : Int)
    (p : Packet) (rest : List Packet) (hp : ¬ (p.stream_index : Int) = vidx) :
    packetLoop m vidx ctx budget (p :: rest) = packetLoop m vidx ctx budget rest := by
  rw [packetLoop, if_neg hp]

theorem packetLoop_video_err (m : SwsModel) (vidx : Int) (ctx : CodecCtx) (budget : Int)
    (p : Packet) (rest : List Packet) (hp : (p.stream_index : Int) = vidx)
    (he : (decode_packet m p ctx).response < 0) :
    packetLoop m vidx ctx budget (p :: rest) =
      ⟨(decode_packet m p ctx).ctx, budget, (decode_packet m p ctx).exports,
       (decode_packet m p ctx).calls, LoopExit.decodeError (decode_packet m p ctx).response⟩ := by
  rw [packetLoop, if_pos hp]
  simp only [if_pos he]

theorem packetLoop_video_last (m : SwsModel) (vidx : Int) (ctx : CodecCtx) (budget : Int)
    (p : Packet) (rest : List Packet) (hp : (p.stream_index : Int) = vidx)
    (he : ¬ (decode_packet m p ctx).response < 0) (hb : budget - 1 ≤ 0) :
    packetLoop m vidx ctx budget (p :: rest) =
      ⟨(decode_packet m p ctx).ctx, budget - 1, (decode_packet m p ctx).exports,
       (decode_packet m p ctx).calls, LoopExit.budgetExhausted⟩ := by
  rw [packetLoop, if_pos hp]
  simp only [if_neg he, if_pos hb]

theorem packetLoop_video_cont (m : SwsModel) (vidx : Int) (ctx : CodecCtx) (budget : Int)
    (p : Packet) (rest : List Packet) (hp : (p.stream_index : Int) = vidx)
    (he : ¬ (decode_packet m p ctx).response < 0) (hb : ¬ budget - 1 ≤ 0) :
    packetLoop m vidx ctx budget (p :: rest) =
      ⟨(packetLoop m vidx (decode_packet m p ctx).ctx (budget - 1) rest).ctx,
       (packetLoop m vidx (decode_packet m p ctx).ctx (budget - 1) rest).budget,
       (decode_packet m p ctx).exports ++
         (packetLoop m vidx (decode_packet m p ctx).ctx (budget - 1) rest).exports,
       (decode_packet m p ctx).calls ++
         (packetLoop m vidx (decode_packet m p ctx).ctx (budget - 1) rest).calls,
       (packetLoop m vidx (decode_packet m p ctx).ctx (budget - 1) rest).exitKind⟩ := by
  rw [packetLoop, if_pos hp]
  simp only [if_neg he, if_neg hb]

/-! ### Facts about the pull loop and `decode_packet` -/

theorem pullLoop_calls (m : SwsModel) :
    ∀ recv ctx, ∀ call ∈ (pullLoop m ctx recv).calls, call = LibCall.receiveFrame := by
  intro recv
  induction recv with
  | nil => intro ctx call h; simp [pullLoop_nil] at h
  | cons o rest ih =>
    intro ctx call h
    cases o with
    | frame f =>
      rw [pullLoop_frame] at h
      rcases List.mem_cons.mp h with h | h
      · exact h
      · exact ih _ call h
    | again => rw [pullLoop_again] at h; simpa using h
    | eof => rw [pullLoop_eof] at h; simpa using h
    | err c => rw [pullLoop_err] at h; simpa using h

theorem pullLoop_clean (m : SwsModel) :
    ∀ recv ctx, noErrList recv = true →
      (pullLoop m ctx recv).response = 0 ∧
      (pullLoop m ctx recv).exports.length = framesYielded recv := by
  intro recv
  induction recv with
  | nil => intro ctx _; exact ⟨rfl, rfl⟩
  | cons o rest ih =>
    intro ctx hc
    cases o with
    | frame f =>
      have hc' : noErrList rest = true := by simpa [noErrList] using hc
      obtain ⟨h1, h2⟩ := ih ⟨ctx.frame_number + 1⟩ hc'
      rw [pullLoop_frame]
      exact ⟨h1, by simp [h2, framesYielded]⟩
    | again => exact ⟨rfl, rfl⟩
    | eof => exact ⟨rfl, rfl⟩
    | err c => simp [noErrList] at hc

theorem pullLoop_fnums (m : SwsModel) :
    ∀ recv ctx,
      (pullLoop m ctx recv).exports.map Export.fnumber
        = List.range' (ctx.frame_number + 1) (pullLoop m ctx recv).exports.length ∧
      (pullLoop m ctx recv).ctx.frame_number
        = ctx.frame_number + (pullLoop m ctx recv).exports.length := by
  intro recv
  induction recv with
  | nil => intro ctx; exact ⟨rfl, rfl⟩
  | cons o rest ih =>
    intro ctx
    cases o with
    | frame f =>
      obtain ⟨h1, h2⟩ := ih ⟨ctx.frame_number + 1⟩
      rw [pullLoop_frame]
      constructor
      · simp only [List.map_cons, List.length_cons, h1]
        rw [List.range'_succ]
      · simp only [List.length_cons, h2]
        omega
    | again => exact ⟨rfl, rfl⟩
    | eof => exact ⟨rfl, rfl⟩
    | err c => exact ⟨rfl, rfl⟩

theorem pullLoop_names (m : SwsModel) :
    ∀ recv ctx, ∀ e ∈ (pullLoop m ctx recv).exports,
      e.gray.name = "frame-" ++ Nat.repr e.fnumber ++ ".pgm" ∧
      e.rgb.name = "frame-" ++ Nat.repr e.fnumber ++ ".ppm" := by
  intro recv
  induction recv with
  | nil => intro ctx e h; simp [pullLoop_nil] at h
  | cons o rest ih =>
    intro ctx e h
    cases o with
    | frame f =>
      rw [pullLoop_frame] at h
      rcases List.mem_cons.mp h with h | h
      · subst h
        exact ⟨rfl, rfl⟩
      · exact ih _ e h
    | again => simp [pullLoop_again] at h
    | eof => simp [pullLoop_eof] at h
    | err c => simp [pullLoop_err] at h

theorem pullLoop_response_err (m : SwsModel) :
    ∀ recv ctx (c : Int), pullError recv = some c →
      (pullLoop m ctx recv).response = c := by
  intro recv
  induction recv with
  | nil => intro ctx c hc; simp [pullError] at hc
  | cons o rest ih =>
    intro ctx c hc
    cases o with
    | frame f =>
      rw [pullLoop_frame]
      exact ih ⟨ctx.frame_number + 1⟩ c (by simpa [pullError] using hc)
    | again => simp [pullError] at hc
    | eof => simp [pullError] at hc
    | err e =>
      have he : e = c := by simpa [pullError] using hc
      rw [pullLoop_err, he]

theorem decode_packet_calls (m : SwsModel) (p : Packet) (ctx : CodecCtx) :
    ∀ call ∈ (decode_packet m p ctx).calls,
      call = LibCall.sendPacket ∨ call = LibCall.receiveFrame := by
  intro call h
  by_cases hs : p.beh.sendResult < 0
  · rw [decode_packet_sendFail m p ctx hs] at h
    simp at h
    exact Or.inl h
  · rw [decode_packet_sendOk m p ctx hs] at h
    rcases List.mem_cons.mp h with h | h
    · exact Or.inl h
    · exact Or.inr (pullLoop_calls m _ _ call h)

theorem decode_packet_sendCount (m : SwsModel) (p : Packet) (ctx : CodecCtx) :
    (decode_packet m p ctx).calls.count LibCall.sendPacket = 1 := by
  by_cases hs : p.beh.sendResult < 0
  · rw [decode_packet_sendFail m p ctx hs]
    rfl
  · rw [decode_packet_sendOk m p ctx hs]
    simp only [List.count_cons]
    have h0 : (pullLoop m ctx p.beh.recv).calls.count LibCall.sendPacket = 0 := by
      refine List.count_eq_zero.mpr fun hmem => ?_
      have := pullLoop_calls m _ _ _ hmem
      simp at this
    simp [h0]

theorem decode_packet_clean (m : SwsModel) (p : Packet) (ctx : CodecCtx)
    (hc : cleanBeh p.beh) :
    (decode_packet m p ctx).response = 0 ∧
    (decode_packet m p ctx).exports.length = framesYielded p.beh.recv := by
  have hs : ¬ p.beh.sendResult < 0 := by
    have := hc.1; omega
  rw [decode_packet_sendOk m p ctx hs]
  obtain ⟨h1, h2⟩ := pullLoop_clean m p.beh.recv ctx hc.2
  exact ⟨h1, h2⟩

theorem decode_packet_fnums (m : SwsModel) (p : Packet) (ctx : CodecCtx) :
    (decode_packet m p ctx).exports.map Export.fnumber
      = List.range' (ctx.frame_number + 1) (decode_packet m p ctx).exports.length ∧
    (decode_packet m p ctx).ctx.frame_number
      = ctx.frame_number + (decode_packet m p ctx).exports.length := by
  by_cases hs : p.beh.sendResult < 0
  · rw [decode_packet_sendFail m p ctx hs]
    exact ⟨rfl, rfl⟩
  · rw [decode_packet_sendOk m p ctx hs]
    exact pullLoop_fnums m p.beh.recv ctx

theorem decode_packet_names (m : SwsModel) (p : Packet) (ctx : CodecCtx) :
    ∀ e ∈ (decode_packet m p ctx).exports,
      e.gray.name = "frame-" ++ Nat.repr e.fnumber ++ ".pgm" ∧
      e.rgb.name = "frame-" ++ Nat.repr e.fnumber ++ ".ppm" := by
  intro e h
  by_cases hs : p.beh.sendResult < 0
  · rw [decode_packet_sendFail m p ctx hs] at h
    simp at h
  · rw [decode_packet_sendOk m p ctx hs] at h
    exact pullLoop_names m p.beh.recv ctx e h

/-! ### Facts about the packet loop -/

theorem videoPackets_nil (vidx : Int) : videoPackets vidx [] = [] := rfl

theorem videoPackets_cons_pos (vidx : Int) (p : Packet) (rest : List Packet)
    (hp : (p.stream_index : Int) = vidx) :
    videoPackets vidx (p :: rest) = p :: videoPackets vidx rest := by
  simp [videoPackets, List.filter_cons, hp]

theorem videoPackets_cons_neg (vidx : Int) (p : Packet) (rest : List Packet)
    (hp : ¬ (p.stream_index : Int) = vidx) :
    videoPackets vidx (p :: rest) = videoPackets vidx rest := by
  simp [videoPackets, List.filter_cons, hp]

theorem packetLoop_calls_kinds (m : SwsModel) (vidx : Int) :
    ∀ packets ctx budget, ∀ call ∈ (packetLoop m vidx ctx budget packets).calls,
      call = LibCall.sendPacket ∨ call = LibCall.receiveFrame := by
  intro packets
  induction packets with
  | nil => intro ctx budget call h; simp [packetLoop_nil] at h
  | cons p rest ih =>
    intro ctx budget call h
    by_cases hp : (p.stream_index : Int) = vidx
    · by_cases he : (decode_packet m p ctx).response < 0
      · rw [packetLoop_video_err m vidx ctx budget p rest hp he] at h
        exact decode_packet_calls m p ctx call h
      · by_cases hb : budget - 1 ≤ 0
        · rw [packetLoop_video_last m vidx ctx budget p rest hp he hb] at h
          exact decode_packet_calls m p ctx call h
        · rw [packetLoop_video_cont m vidx ctx budget p rest hp he hb] at h
          rcases List.mem_append.mp h with h | h
          · exact decode_packet_calls m p ctx call h
          · exact ih _ _ call h
    · rw [packetLoop_skip m vidx ctx budget p rest hp] at h
      exact ih _ _ call h

theorem packetLoop_fnums (m : SwsModel) (vidx : Int) :
    ∀ packets ctx budget,
      (packetLoop m vidx ctx budget packets).exports.map Export.fnumber
        = List.range' (ctx.frame_number + 1)
            (packetLoop m vidx ctx budget packets).exports.length ∧
      (packetLoop m vidx ctx budget packets).ctx.frame_number
        = ctx.frame_number + (packetLoop m vidx ctx budget packets).exports.length := by
  intro packets
  induction packets with
  | nil => intro ctx budget; exact ⟨rfl, rfl⟩
  | cons p rest ih =>
    intro ctx budget
    by_cases hp : (p.stream_index : Int) = vidx
    · by_cases he : (decode_packet m p ctx).response < 0
      · rw [packetLoop_video_err m vidx ctx budget p rest hp he]
        exact decode_packet_fnums m p ctx
      · by_cases hb : budget - 1 ≤ 0
        · rw [packetLoop_video_last m vidx ctx budget p rest hp he hb]
          exact decode_packet_fnums m p ctx
        · rw [packetLoop_video_cont m vidx ctx budget p rest hp he hb]
          obtain ⟨d1, d2⟩ := decode_packet_fnums m p ctx
          obtain ⟨r1, r2⟩ := ih (decode_packet m p ctx).ctx (budget - 1)
          constructor
          · simp only [List.map_append, List.length_append, d1, r1, d2]
            have harg : ctx.frame_number + (decode_packet m p ctx).exports.length + 1
                = (ctx.frame_number + 1) + (decode_packet m p ctx).exports.length := by omega
            rw [harg, range_app]
          · simp only [List.length_append, r2, d2]; omega
    · rw [packetLoop_skip m vidx ctx budget p rest hp]
      exact ih ctx budget

theorem packetLoop_names (m : SwsModel) (vidx : Int) :
    ∀ packets ctx budget, ∀ e ∈ (packetLoop m vidx ctx budget packets).exports,
      e.gray.name = "frame-" ++ Nat.repr e.fnumber ++ ".pgm" ∧
      e.rgb.name = "frame-" ++ Nat.repr e.fnumber ++ ".ppm" := by
  intro packets
  induction packets with
  | nil => intro ctx budget e h; simp [packetLoop_nil] at h
  | cons p rest ih =>
    intro ctx budget e h
    by_cases hp : (p.stream_index : Int) = vidx
    · by_cases he : (decode_packet m p ctx).response < 0
      · rw [packetLoop_video_err m vidx ctx budget p rest hp he] at h
        exact decode_packet_names m p ctx e h
      · by_cases hb : budget - 1 ≤ 0
        · rw [packetLoop_video_last m vidx ctx budget p rest hp he hb] at h
          exact decode_packet_names m p ctx e h
        · rw [packetLoop_video_cont m vidx ctx budget p rest hp he hb] at h
          rcases List.mem_append.mp h with h | h
          · exact decode_packet_names m p ctx e h
          · exact ih _ _ e h
    · rw [packetLoop_skip m vidx ctx budget p rest hp] at h
      exact ih _ _ e h

theorem packetLoop_clean_len (m : SwsModel) (vidx : Int) :
    ∀ packets ctx (budget : Int), 0 < budget →
      (∀ p ∈ packets, (p.stream_index : Int) = vidx → cleanBeh p.beh) →
      (packetLoop m vidx ctx budget packets).exports.length
        = (((videoPackets vidx packets).take budget.toNat).map
            fun p => framesYielded p.beh.recv).sum := by
  intro packets
  induction packets with
  | nil => intro ctx budget hb hc; simp [packetLoop_nil, videoPackets_nil]
  | cons p rest ih =>
    intro ctx budget hb hc
    by_cases hp : (p.stream_index : Int) = vidx
    · have hcp : cleanBeh p.beh := hc p (List.mem_cons_self p rest) hp
      obtain ⟨hr0, hlen⟩ := decode_packet_clean m p ctx hcp
      have he : ¬ (decode_packet m p ctx).response < 0 := by omega
      rw [videoPackets_cons_pos vidx p rest hp]
      by_cases hb1 : budget - 1 ≤ 0
      · rw [packetLoop_video_last m vidx ctx budget p rest hp he hb1]
        have ht : budget.toNat = 1 := by omega
        rw [ht]
        simp [hlen]
      · rw [packetLoop_video_cont m vidx ctx budget p rest hp he hb1]
        have ht : budget.toNat = (budget - 1).toNat + 1 := by omega
        rw [ht, List.take_succ_cons]
        simp only [List.length_append, List.map_cons, List.sum_cons, hlen]
        rw [ih (decode_packet m p ctx).ctx (budget - 1) (by omega)
          fun q hq hqv => hc q (List.mem_cons_of_mem p hq) hqv]
    · rw [packetLoop_skip m vidx ctx budget p rest hp,
        videoPackets_cons_neg vidx p rest hp]
      exact ih ctx budget hb fun q hq hqv => hc q (List.mem_cons_of_mem p hq) hqv

theorem packetLoop_budget_sends (m : SwsModel) (vidx : Int) :
    ∀ packets ctx (budget : Int), 0 < budget →
      (∀ p ∈ packets, (p.stream_index : Int) = vidx → cleanBeh p.beh) →
      (packetLoop m vidx ctx budget packets).budget
        = budget - min budget ((videoPackets vidx packets).length : Int) ∧
      (packetLoop m vidx ctx budget packets).calls.count LibCall.sendPacket
        = min budget.toNat (videoPackets vidx packets).length := by
  intro packets
  induction packets with
  | nil =>
    intro ctx budget hb hc
    constructor
    · simp [packetLoop_nil, videoPackets_nil]; omega
    · simp [packetLoop_nil, videoPackets_nil]
  | cons p rest ih =>
    intro ctx budget hb hc
    by_cases hp : (p.stream_index : Int) = vidx
    · have hcp : cleanBeh p.beh := hc p (List.mem_cons_self p rest) hp
      obtain ⟨hr0, _⟩ := decode_packet_clean m p ctx hcp
      have he : ¬ (decode_packet m p ctx).response < 0 := by omega
      rw [videoPackets_cons_pos vidx p rest hp]
      by_cases hb1 : budget - 1 ≤ 0
      · rw [packetLoop_video_last m vidx ctx budget p rest hp he hb1]
        constructor
        · simp only [List.length_cons]
          push_cast
          omega
        · rw [decode_packet_sendCount m p ctx]
          simp only [List.length_cons]
          omega
      · rw [packetLoop_video_cont m vidx ctx budget p rest hp he hb1]
        obtain ⟨ihb, ihc⟩ := ih (decode_packet m p ctx).ctx (budget - 1) (by omega)
          fun q hq hqv => hc q (List.mem_cons_of_mem p hq) hqv
        constructor
        · rw [ihb]
          simp only [List.length_cons]
          push_cast
          omega
        · rw [List.count_append, decode_packet_sendCount m p ctx, ihc]
          simp only [List.length_cons]
          omega
    · rw [packetLoop_skip m vidx ctx budget p rest hp,
        videoPackets_cons_neg vidx p rest hp]
      exact ih ctx budget hb fun q hq hqv => hc q (List.mem_cons_of_mem p hq) hqv


/-! ### Facts about stream selection -/

theorem streamSelectLoop_frozen :
    ∀ (l : List StreamDesc) (i : Nat) (a : Int), a ≠ -1 → streamSelectLoop l i a = a := by
  intro l
  induction l with
  | nil => intro i a _; rfl
  | cons s rest ih =>
    intro i a ha
    by_cases hd : s.hasDecoder = false
    · rw [show streamSelectLoop (s :: rest) i a = streamSelectLoop rest (i + 1) a by
        simp [streamSelectLoop, hd]]
      exact ih (i + 1) a ha
    · rw [show streamSelectLoop (s :: rest) i a = streamSelectLoop rest (i + 1) a by
        simp [streamSelectLoop, hd, ha]]
      exact ih (i + 1) a ha

theorem streamSelectLoop_spec :
    ∀ (l : List StreamDesc) (i : Nat),
      streamSelectLoop l i (-1)
        = match spec_firstVideo l with
          | some j => ((i + j : Nat) : Int)
          | none => -1 := by
  intro l
  induction l with
  | nil => intro i; rfl
  | cons s rest ih =>
    intro i
    by_cases hd : s.hasDecoder = false
    · have hcond : ¬ (s.hasDecoder = true ∧ s.codec_type = CodecType.video) := by
        rintro ⟨h1, _⟩; rw [hd] at h1; exact Bool.false_ne_true h1
      rw [show streamSelectLoop (s :: rest) i (-1) = streamSelectLoop rest (i + 1) (-1) by
        simp [streamSelectLoop, hd]]
      rw [ih (i + 1)]
      rw [show spec_firstVideo (s :: rest) = (spec_firstVideo rest).map (· + 1) by
        simp [spec_firstVideo, hcond]]
      cases h : spec_firstVideo rest with
      | none => simp
      | some j =>
        simp only [Option.map_some']
        congr 1
        omega
    · have hd' : s.hasDecoder = true := by
        cases hb : s.hasDecoder
        · exact absurd hb hd
        · rfl
      by_cases hv : s.codec_type = CodecType.video
      · rw [show streamSelectLoop (s :: rest) i (-1) = streamSelectLoop rest (i + 1) (i : Int) by
          simp [streamSelectLoop, hd, hv]]
        rw [show spec_firstVideo (s :: rest) = some 0 by simp [spec_firstVideo, hd', hv]]
        rw [streamSelectLoop_frozen rest (i + 1) (i : Int) (by omega)]
        simp
      · have hcond : ¬ (s.hasDecoder = true ∧ s.codec_type = CodecType.video) :=
          fun hand => hv hand.2
        rw [show streamSelectLoop (s :: rest) i (-1) = streamSelectLoop rest (i + 1) (-1) by
          simp [streamSelectLoop, hd, hv]]
        rw [ih (i + 1)]
        rw [show spec_firstVideo (s :: rest) = (spec_firstVideo rest).map (· + 1) by
          simp [spec_firstVideo, hcond]]
        cases h : spec_firstVideo rest with
        | none => simp
        | some j =>
          simp only [Option.map_some']
          congr 1
          omega

/-! ### Concrete test data used by the witnesses and counterexamples -/

/-- A concrete 2 by 2 YUV420P frame whose luma plane has stride 3 (one padding
byte per row) and holds the byte value `i` at plane offset `i`. -/
def wFrame : Frame :=
  { width := 2
    height := 2
    format := AV_PIX_FMT_YUV420P
    data0 := fun i => i
    linesize0 := 3
    data1 := fun _ => 0
    linesize1 := 2
    data2 := fun _ => 0
    linesize2 := 2 }

/-- A concrete conversion oracle. -/
def wSws : SwsModel := ⟨fun _ i => i % 256⟩

/-- A video stream whose codec resolves to a decoder. -/
def wVideoDesc : StreamDesc := ⟨CodecType.video, true⟩

/-- An audio stream whose codec resolves to a decoder. -/
def wAudioDesc : StreamDesc := ⟨CodecType.audio, true⟩

/-- A packet of stream 0 for which the decoder yields six frames and then
signals would-block. -/
def wPacket6 : Packet :=
  ⟨0, ⟨0, [RecvOutcome.frame wFrame, RecvOutcome.frame wFrame, RecvOutcome.frame wFrame,
    RecvOutcome.frame wFrame, RecvOutcome.frame wFrame, RecvOutcome.frame wFrame,
    RecvOutcome.again]⟩⟩

/-- A packet of stream 0 that the decoder rejects (send result -22, ffmpeg's
`AVERROR(EINVAL)`). -/
def wBadPacket : Packet := ⟨0, ⟨-22, []⟩⟩

/-- A packet of stream 0 for which the decoder yields one frame. -/
def wGoodPacket : Packet := ⟨0, ⟨0, [RecvOutcome.frame wFrame, RecvOutcome.again]⟩⟩

/-- A packet of stream 1 (not the video stream in the test traces). -/
def wAudioPacket : Packet := ⟨1, ⟨0, [RecvOutcome.frame wFrame, RecvOutcome.again]⟩⟩

/-- A packet of stream 0 that the decoder accepts but whose pull sequence
fails after one frame with error -5 (neither EAGAIN nor EOF). -/
def wErrPacket : Packet := ⟨0, ⟨0, [RecvOutcome.frame wFrame, RecvOutcome.err (-5)]⟩⟩

/-! ### The claims -/

/-- C2: for every exported grayscale frame of width `xsize`, height `ysize`,
luma buffer `buf` and stride `wrap` with `xsize ≤ wrap`, and all `r < ysize`,
`c < xsize`, the payload byte at position `r * xsize + c` of the written
grayscale file (the byte right after the header at that offset) equals
`buf[r * wrap + c]`: the grayscale exporter copies exactly the luma plane,
addressing each source row by stride. -/
theorem C2_theorem (buf : Nat → Nat) (wrap xsize ysize fnumber r c : Nat)
    (hs : xsize ≤ wrap) (hr : r < ysize) (hc : c < xsize) :
    (save_gray_frame buf wrap xsize ysize fnumber).bytes.getD
      ((pgmHeader xsize ysize).length + (r * xsize + c)) 0 = buf (r * wrap + c) := by
  show (pgmHeader xsize ysize ++ writeRows buf wrap xsize ysize).getD
      ((pgmHeader xsize ysize).length + (r * xsize + c)) 0 = buf (r * wrap + c)
  rw [List.getD_append_right]
  · have hsub : (pgmHeader xsize ysize).length + (r * xsize + c)
        - (pgmHeader xsize ysize).length = r * xsize + c := by omega
    rw [hsub]
    exact writeRows_getD buf wrap xsize ysize r c hr hc
  · omega

/-- C2 witness: the grayscale file of `wFrame` (stride 3, width 2) holds, at
payload position `1 * 2 + 1`, the luma byte at `1 * 3 + 1`. -/
theorem C2_witness :
    (save_gray_frame (fun i => i) 3 2 2 1).bytes.getD
      ((pgmHeader 2 2).length + (1 * 2 + 1)) 0 = 1 * 3 + 1 :=
  C2_theorem (fun i => i) 3 2 2 1 1 1 (by decide) (by decide) (by decide)

/-- C3: each output file is exactly the ASCII header (`P5\n<w> <h>\n255\n`
for grayscale, `P6\n<w> <h>\n255\n` for color) followed by exactly
`width * height` (grayscale) resp. `width * height * 3` (color) payload
bytes, and every payload byte comes from a column strictly inside the row
(`c < width` of the luma plane, `c < width * 3` of the packed RGB plane whose
stride is exactly `width * 3`), so stride-padding bytes never reach any
output file. -/
theorem C3_theorem (m : SwsModel) (f : Frame) (fnumber : Nat) :
    (save_gray_frame f.data0 f.linesize0 f.width f.height fnumber).bytes
      = pgmHeader f.width f.height ++ writeRows f.data0 f.linesize0 f.width f.height ∧
    (writeRows f.data0 f.linesize0 f.width f.height).length = f.width * f.height ∧
    (∀ b ∈ writeRows f.data0 f.linesize0 f.width f.height,
      ∃ r c, r < f.height ∧ c < f.width ∧ b = f.data0 (r * f.linesize0 + c)) ∧
    (save_rgb_frame m f fnumber).1.bytes
      = ppmHeader f.width f.height ++
        writeRows (convertStep m f).1.data0 (f.width * 3) (f.width * 3) f.height ∧
    (writeRows (convertStep m f).1.data0 (f.width * 3) (f.width * 3) f.height).length
      = f.width * f.height * 3 ∧
    (∀ b ∈ writeRows (convertStep m f).1.data0 (f.width * 3) (f.width * 3) f.height,
      ∃ r c, r < f.height ∧ c < f.width * 3 ∧
        b = (convertStep m f).1.data0 (r * (f.width * 3) + c)) := by
  refine ⟨rfl, ?_, ?_, rfl, ?_, ?_⟩
  · rw [writeRows_length]; ring
  · exact writeRows_mem f.data0 f.linesize0 f.width f.height
  · rw [writeRows_length]; ring
  · exact writeRows_mem (convertStep m f).1.data0 (f.width * 3) (f.width * 3) f.height

/-- C7: the conversion call performed by the color exporter produces a frame
of the same width and height as the input decoded frame, the converted
plane's contents are determined solely by the conversion oracle applied to
the source (the destination buffer is freshly allocated by `allocateFrame`
with contents independent of every existing frame, so it shares no storage
with the input), and the input frame is returned unchanged by the call (the
source planes are passed const). -/
theorem C7_theorem (m : SwsModel) (f : Frame) :
    (convertStep m f).1.width = f.width ∧
    (convertStep m f).1.height = f.height ∧
    (convertStep m f).2 = f ∧
    (convertStep m f).1.data0 = m.convert f ∧
    (allocateFrame f.width f.height).data0 = fun _ => 0 :=
  ⟨rfl, rfl, rfl, rfl, rfl⟩

/-- C8: evaluation of the exporters' open/write effect structure at a failed
`fopen`.  The C code never examines the handle `fopen` returns: even when it
is NULL, `save_gray_frame` issues 1 + ysize write calls on it (here ysize = 2,
so 3 calls) and reports no error, and `save_rgb_frame` behaves the same -
contradicting the claim that an IoError is reported and that no write is
attempted through an invalid handle. -/
theorem C8_theorem :
    (save_gray_frame_effects FopenResult.nullHandle 2).writesOnHandle = 3 ∧
    (save_gray_frame_effects FopenResult.nullHandle 2).errorReported = false ∧
    (save_rgb_frame_effects FopenResult.nullHandle 2).writesOnHandle = 3 ∧
    (save_rgb_frame_effects FopenResult.nullHandle 2).errorReported = false :=
  ⟨rfl, rfl, rfl, rfl⟩

/-- C4: over any run, the exported frame numbers are exactly 1, 2, 3, ... in
order (the session counter is incremented once per successfully decoded
frame, its value at decode time is 1-based, and it never repeats or goes
backward - the list of frame numbers is the strictly increasing range
starting at 1), and each number is used verbatim in the names
`frame-<N>.pgm` and `frame-<N>.ppm` of the two files exported for that
frame. -/
theorem C4_theorem (m : SwsModel) (streams : List StreamDesc) (packets : List Packet) :
    (runMain m streams packets).exports.map Export.fnumber
      = List.range' 1 (runMain m streams packets).exports.length ∧
    ((runMain m streams packets).exports.map Export.fnumber).Pairwise (· < ·) ∧
    ∀ e ∈ (runMain m streams packets).exports,
      e.gray.name = "frame-" ++ Nat.repr e.fnumber ++ ".pgm" ∧
      e.rgb.name = "frame-" ++ Nat.repr e.fnumber ++ ".ppm" := by
  by_cases hsel : streamSelectLoop streams 0 (-1) = -1
  · have hrun : runMain m streams packets = ⟨-1, [], []⟩ := by
      simp only [runMain]
      rw [if_pos hsel]
    rw [hrun]
    refine ⟨rfl, List.Pairwise.nil, ?_⟩
    intro e he
    simp at he
  · have hrun : runMain m streams packets =
        ⟨0, (packetLoop m (streamSelectLoop streams 0 (-1)) ⟨0⟩ 5 packets).exports,
          (packetLoop m (streamSelectLoop streams 0 (-1)) ⟨0⟩ 5 packets).calls ++
            [LibCall.closeInput, LibCall.packetFree, LibCall.frameFree,
              LibCall.freeContext]⟩ := by
      simp only [runMain]
      rw [if_neg hsel]
    rw [hrun]
    obtain ⟨h1, _⟩ := packetLoop_fnums m (streamSelectLoop streams 0 (-1)) packets ⟨0⟩ 5
    refine ⟨h1, ?_, ?_⟩
    · rw [h1]
      exact List.pairwise_lt_range' 1 _
    · exact packetLoop_names m (streamSelectLoop streams 0 (-1)) packets ⟨0⟩ 5

/-- C5: stream selection picks the first stream in container order whose
media type is video and whose codec resolves to a decoder (streams with an
unresolvable codec are skipped, audio and other streams only logged - the
selected index is exactly the index of the first resolvable video stream);
and if no such stream exists, the run terminates with exit status -1 having
written zero output files. -/
theorem C5_theorem (m : SwsModel) (packets : List Packet) (streams : List StreamDesc) :
    streamSelectLoop streams 0 (-1)
      = (match spec_firstVideo streams with
         | some j => (j : Int)
         | none => -1) ∧
    (spec_firstVideo streams = none →
      (runMain m streams packets).exitCode = -1 ∧
      (runMain m streams packets).exports = []) := by
  constructor
  · rw [streamSelectLoop_spec streams 0]
    cases h : spec_firstVideo streams with
    | none => rfl
    | some j => simp
  · intro hnone
    have hsel : streamSelectLoop streams 0 (-1) = -1 := by
      rw [streamSelectLoop_spec streams 0, hnone]
    have hrun : runMain m streams packets = ⟨-1, [], []⟩ := by
      simp only [runMain]
      rw [if_pos hsel]
    rw [hrun]
    exact ⟨rfl, rfl⟩

/-- C5 witness: on a source whose only streams are a resolvable audio stream
and a video stream without a resolvable decoder, no stream is selected, and
the run exits with status -1 having written zero files. -/
theorem C5_witness :
    (runMain wSws [wAudioDesc, ⟨CodecType.video, false⟩] []).exitCode = -1 ∧
    (runMain wSws [wAudioDesc, ⟨CodecType.video, false⟩] []).exports = [] :=
  (C5_theorem wSws [] [wAudioDesc, ⟨CodecType.video, false⟩]).2 (by decide)

/-- C1 counterexample: the claim "exactly min(N, total decodable video
frames) files are produced" is false.  On a source with one video stream and
a single packet for which the decoder yields six frames, the run exports six
frame pairs, while min(5, total decodable frames) = min(5, 6) = 5: the
countdown is per packet, not per exported frame. -/
theorem C1_counterexample :
    (runMain wSws [wVideoDesc] [wPacket6]).exports.length ≠
      min 5 (spec_totalDecodableFrames (streamSelectLoop [wVideoDesc] 0 (-1)) [wPacket6]) := by
  decide

/-- C1 (amended): the budget counter decrements once per accepted video
packet, not once per exported frame; on an error-free trace the run exports
every frame the decoder yields for the first (at most) 5 packets of the
selected video stream - the pull is repeated until would-block or
end-of-stream, so no yielded frame is dropped - and produces exactly one
grayscale and one color file per exported frame (so the two counts are
equal), but the total file count is the sum of the yields of those packets,
which need not equal min(5, total decodable frames). -/
theorem C1_theorem (m : SwsModel) (streams : List StreamDesc) (packets : List Packet)
    (hclean : ∀ p ∈ packets,
      (p.stream_index : Int) = streamSelectLoop streams 0 (-1) → cleanBeh p.beh) :
    (runMain m streams packets).exports.length
      = (((videoPackets (streamSelectLoop streams 0 (-1)) packets).take 5).map
          fun p => framesYielded p.beh.recv).sum ∧
    ((runMain m streams packets).exports.map Export.gray).length
      = ((runMain m streams packets).exports.map Export.rgb).length := by
  refine ⟨?_, by simp⟩
  by_cases hsel : streamSelectLoop streams 0 (-1) = -1
  · have hrun : runMain m streams packets = ⟨-1, [], []⟩ := by
      simp only [runMain]
      rw [if_pos hsel]
    have hvp : videoPackets (streamSelectLoop streams 0 (-1)) packets = [] := by
      rw [hsel]
      refine List.filter_eq_nil_iff.mpr ?_
      intro p _
      simp only [decide_eq_true_eq]
      omega
    rw [hrun, hvp]
    rfl
  · have hrun : (runMain m streams packets).exports
        = (packetLoop m (streamSelectLoop streams 0 (-1)) ⟨0⟩ 5 packets).exports := by
      simp only [runMain]
      rw [if_neg hsel]
    rw [hrun]
    have h := packetLoop_clean_len m (streamSelectLoop streams 0 (-1)) packets ⟨0⟩ 5
      (by norm_num) hclean
    simpa using h

/-- C1 witness: on the one-packet six-frame trace the amended count equation
holds (both sides evaluate to 6). -/
theorem C1_witness :
    (runMain wSws [wVideoDesc] [wPacket6]).exports.length
      = (((videoPackets (streamSelectLoop [wVideoDesc] 0 (-1)) [wPacket6]).take 5).map
          fun p => framesYielded p.beh.recv).sum :=
  (C1_theorem wSws [wVideoDesc] [wPacket6] (by decide)).1

/-- C6 counterexample: the claim "decode-path errors terminate the run with a
nonzero exit status" is false.  On a trace whose first video packet is
rejected by the decoder (send result -22), the run stops decoding but `main`
falls through to the cleanup code and returns 0: the exit status is 0 and no
file was written for the later, decodable packet. -/
theorem C6_counterexample :
    (runMain wSws [wVideoDesc] [wBadPacket, wGoodPacket]).exitCode = 0 ∧
    (runMain wSws [wVideoDesc] [wBadPacket, wGoodPacket]).exports = [] := by
  constructor <;> rfl

/-- C6 (amended): every decode-path error is still fatal to the pipeline in
the sense that it stops packet processing on the spot.  If the decoder
rejects the fed packet (`p`, send result negative), the loop exits with that
error code having consulted none of the remaining packets and exported
nothing for it; if instead the feed is accepted but a pull fails with an
error `c < 0` other than would-block or end-of-stream (`q`), the loop exits
with `decodeError c`, again without consulting the remaining packets, the
frames yielded before the failing pull having been exported.  In both cases
the process then releases its resources and exits with status 0, not
nonzero. -/
theorem C6_theorem (m : SwsModel) (vidx : Int) (ctx : CodecCtx) (budget : Int)
    (p q : Packet) (rest rest2 : List Packet) (streams : List StreamDesc)
    (packets : List Packet) (c : Int)
    (hp : (p.stream_index : Int) = vidx) (hfail : p.beh.sendResult < 0)
    (hq : (q.stream_index : Int) = vidx) (hqsend : 0 ≤ q.beh.sendResult)
    (hqerr : pullError q.beh.recv = some c) (hc : c < 0)
    (hvid : ¬ streamSelectLoop streams 0 (-1) = -1) :
    packetLoop m vidx ctx budget (p :: rest)
      = ⟨ctx, budget, [], [LibCall.sendPacket], LoopExit.decodeError p.beh.sendResult⟩ ∧
    packetLoop m vidx ctx budget (q :: rest2)
      = ⟨(pullLoop m ctx q.beh.recv).ctx, budget, (pullLoop m ctx q.beh.recv).exports,
          LibCall.sendPacket :: (pullLoop m ctx q.beh.recv).calls, LoopExit.decodeError c⟩ ∧
    (runMain m streams packets).exitCode = 0 := by
  refine ⟨?_, ?_, ?_⟩
  · have hd := decode_packet_sendFail m p ctx hfail
    have he : (decode_packet m p ctx).response < 0 := by rw [hd]; exact hfail
    rw [packetLoop_video_err m vidx ctx budget p rest hp he, hd]
  · have hqs : ¬ q.beh.sendResult < 0 := by omega
    have hd := decode_packet_sendOk m q ctx hqs
    have hresp : (pullLoop m ctx q.beh.recv).response = c :=
      pullLoop_response_err m q.beh.recv ctx c hqerr
    have he : (decode_packet m q ctx).response < 0 := by rw [hd]; simpa [hresp] using hc
    rw [packetLoop_video_err m vidx ctx budget q rest2 hq he, hd]
    simp [hresp]
  · have hrun : (runMain m streams packets).exitCode = 0 := by
      simp only [runMain]
      rw [if_neg hvid]
    exact hrun

/-- C6 witness: at the concrete packet whose pull fails with error -5 after
one yielded frame, the loop stops with the decode-error exit, never reaching
the decodable packet behind it. -/
theorem C6_witness :
    packetLoop wSws 0 ⟨0⟩ 5 [wErrPacket, wGoodPacket]
      = ⟨(pullLoop wSws ⟨0⟩ wErrPacket.beh.recv).ctx, 5,
          (pullLoop wSws ⟨0⟩ wErrPacket.beh.recv).exports,
          LibCall.sendPacket :: (pullLoop wSws ⟨0⟩ wErrPacket.beh.recv).calls,
          LoopExit.decodeError (-5)⟩ :=
  (C6_theorem wSws 0 ⟨0⟩ 5 wBadPacket wErrPacket [wGoodPacket] [wGoodPacket]
    [wVideoDesc] [wBadPacket, wGoodPacket] (-5)
    (by decide) (by decide) (by decide) (by decide) (by decide) (by decide) (by decide)).2.1

/-- C9: in the driver's packet loop, a packet whose stream index differs from
the selected video stream changes nothing (it is never submitted to the
decoder and never decrements the countdown), and over an error-free run the
countdown initialized to 5 ends at `5 - min 5 v` where `v` is the number of
video-stream packets - one decrement per accepted video packet, after it has
been decoded, independent of how many frames each packet yielded - which also
equals the number of `avcodec_send_packet` calls issued. -/
theorem C9_theorem (m : SwsModel) (vidx : Int) (ctx : CodecCtx) (budget : Int)
    (p : Packet) (rest : List Packet) (packets : List Packet)
    (hp : ¬ (p.stream_index : Int) = vidx)
    (hclean : ∀ q ∈ packets, (q.stream_index : Int) = vidx → cleanBeh q.beh) :
    packetLoop m vidx ctx budget (p :: rest) = packetLoop m vidx ctx budget rest ∧
    (packetLoop m vidx ⟨0⟩ 5 packets).budget
      = 5 - min 5 ((videoPackets vidx packets).length : Int) ∧
    (packetLoop m vidx ⟨0⟩ 5 packets).calls.count LibCall.sendPacket
      = min 5 (videoPackets vidx packets).length := by
  refine ⟨packetLoop_skip m vidx ctx budget p rest hp, ?_, ?_⟩
  · exact (packetLoop_budget_sends m vidx packets ⟨0⟩ 5 (by norm_num) hclean).1
  · have h := (packetLoop_budget_sends m vidx packets ⟨0⟩ 5 (by norm_num) hclean).2
    simpa using h

/-- C9 witness: on a trace of one video packet (yielding one frame) and one
audio packet, the audio packet leaves the loop unchanged, the countdown ends
at 5 - min 5 1 = 4, and exactly one send call was made. -/
theorem C9_witness :
    packetLoop wSws 0 ⟨0⟩ 5 [wAudioPacket, wGoodPacket]
      = packetLoop wSws 0 ⟨0⟩ 5 [wGoodPacket] :=
  (C9_theorem wSws 0 ⟨0⟩ 5 wAudioPacket [wGoodPacket] [wGoodPacket, wAudioPacket]
    (by decide) (by decide)).1

/-- C10: when the packet loop exits, `main` only releases resources: the
run's library-call trace is the loop's calls followed by exactly
close-input/packet-free/frame-free/free-context, the drain signal
`avcodec_send_packet(ctx, NULL)` (`sendFlush`) is never issued anywhere in
the run, no further `avcodec_receive_frame` (nor any send) occurs after the
loop, and the run's exports are exactly the loop's exports - so frames still
buffered inside the decoder at loop exit are released by the cleanup without
ever being exported. -/
theorem C10_theorem (m : SwsModel) (streams : List StreamDesc) (packets : List Packet)
    (hvid : ¬ streamSelectLoop streams 0 (-1) = -1) :
    LibCall.sendFlush ∉ (runMain m streams packets).calls ∧
    (runMain m streams packets).calls
      = (packetLoop m (streamSelectLoop streams 0 (-1)) ⟨0⟩ 5 packets).calls
        ++ [LibCall.closeInput, LibCall.packetFree, LibCall.frameFree,
          LibCall.freeContext] ∧
    (runMain m streams packets).exports
      = (packetLoop m (streamSelectLoop streams 0 (-1)) ⟨0⟩ 5 packets).exports ∧
    LibCall.receiveFrame ∉ [LibCall.closeInput, LibCall.packetFree, LibCall.frameFree,
      LibCall.freeContext] ∧
    LibCall.sendPacket ∉ [LibCall.closeInput, LibCall.packetFree, LibCall.frameFree,
      LibCall.freeContext] := by
  have hrun : runMain m streams packets =
      ⟨0, (packetLoop m (streamSelectLoop streams 0 (-1)) ⟨0⟩ 5 packets).exports,
        (packetLoop m (streamSelectLoop streams 0 (-1)) ⟨0⟩ 5 packets).calls ++
          [LibCall.closeInput, LibCall.packetFree, LibCall.frameFree,
            LibCall.freeContext]⟩ := by
    simp only [runMain]
    rw [if_neg hvid]
  rw [hrun]
  refine ⟨?_, rfl, rfl, by decide, by decide⟩
  intro hmem
  rcases List.mem_append.mp hmem with h | h
  · rcases packetLoop_calls_kinds m (streamSelectLoop streams 0 (-1)) packets ⟨0⟩ 5 _ h
      with h1 | h1 <;> simp at h1
  · simp at h

/-- C10 witness: on the concrete one-packet run no flush is ever sent. -/
theorem C10_witness :
    LibCall.sendFlush ∉ (runMain wSws [wVideoDesc] [wGoodPacket]).calls :=
  (C10_theorem wSws [wVideoDesc] [wGoodPacket] (by decide)).1
